import Mathlib

/-!
Shallow embedding of `utils.py` (repository `TimCargan/LODLs`): the
disk-backed problem cache (`find_saved_problem`, `init_if_not_saved` and the
`lock` decorator), the metrics reporter (`print_metrics`), the stdout capture
helpers (`Capturing`, `capture`), and the tensor-shape helpers
(`gather_incomplete_left`, `trim_left`, `solve_lineqn`).

Conventions of the embedding:
* Python scalar values stored in the pandas index table are modelled by
  `PyVal` (strings and exact numbers; python's cross-type numeric equality
  `1 == 1.0` is reflected by using one numeric constructor over `ℚ`).
* A pandas `DataFrame` is a column list plus a list of rows, each row an
  association list from column name to value; a column missing from a row's
  association list models a `NaN` cell (as produced by `pd.concat` when the
  column set grows), and a `NaN` cell compares unequal to every value,
  exactly as in pandas.
* The filesystem touched by the cache is a state record: the contents of the
  master csv file (`Option DFrame`, `none` = file absent; csv round-trip is
  modelled as the identity) and the pickle files as an association list from
  filename to the pickled problem object.
* Exceptions are modelled by `Option`/`Except`: `none` / `.error` is a raise.
-/

inductive PyVal where
  | str : String → PyVal
  | num : ℚ → PyVal
deriving DecidableEq, Repr

abbrev Row := List (String × PyVal)

abbrev Kwargs := List (String × PyVal)

structure DFrame where
  cols : List String
  rows : List Row
deriving DecidableEq, Repr

/-- `d[k] = v` on a python dict / `open(k,'wb')` on the file map: replace the
binding of `k` if one exists (keeping its position, as python dicts do),
otherwise append a new binding at the end. -/
def assocSet (d : List (String × β)) (k : String) (v : β) : List (String × β) :=
  if d.any (fun p => p.1 == k) then d.map (fun p => if p.1 == k then (k, v) else p)
  else d ++ [(k, v)]

/-- The boolean `relevant_models[col] == val` holds of a row: the cell exists
(is not `NaN`) and equals `val`. A `NaN` cell (missing key) compares `false`
against every value, as in pandas. -/
def cellEq (r : Row) (c : String) (v : PyVal) : Bool :=
  r.lookup c == some v

/-- One iteration of the filtering loop of `find_saved_problem`
(`utils.py` lines 102-104): if the kwargs key is a column, keep only the rows
whose cell in that column equals the kwargs value; otherwise leave the frame
unchanged. -/
def filterStep (df : DFrame) (kv : String × PyVal) : DFrame :=
  if kv.1 ∈ df.cols then ⟨df.cols, df.rows.filter (fun r => cellEq r kv.1 kv.2)⟩
  else df

/-- `pd.DataFrame(columns=('filename', *kwargs.keys(),))` (`utils.py` line 98). -/
def emptyFrame (kwargs : Kwargs) : DFrame :=
  ⟨"filename" :: kwargs.map Prod.fst, []⟩

/-- `find_saved_problem` (`utils.py` lines 89-111).  The first component of
the result models the python variable `filename`: `none` is python `None`
(no row survived the filter); `some c` means the first surviving row was
read, with `c` its `filename` cell (`c = none` models a `NaN` cell).
The second component is the full table `saved_probs`. -/
def find_saved_problem (master : Option DFrame) (kwargs : Kwargs) :
    Option (Option PyVal) × DFrame :=
  let saved := master.getD (emptyFrame kwargs)
  let relevant := kwargs.foldl filterStep saved
  match relevant.rows with
  | [] => (none, saved)
  | r :: _ => (some (r.lookup "filename"), saved)

/-- `pd.concat([saved_probs, pd.DataFrame.from_dict([kwargs])])`
(`utils.py` line 83): the row is appended, and the column set becomes the
union (existing columns first, then the new row's keys not already present). -/
def concatRow (df : DFrame) (r : Row) : DFrame :=
  ⟨df.cols ++ (r.map Prod.fst).filter (fun c => !df.cols.contains c),
   df.rows ++ [r]⟩

/-- `os.path.join(folder, f"{problem_cls.__name__}_{len(saved_probs)}.pkl")`
(`utils.py` line 77). -/
def mkFilename (folder name : String) (n : Nat) : String :=
  folder ++ "/" ++ name ++ "_" ++ toString n ++ ".pkl"

/-- The filesystem state seen by the cache: the contents of
`models/<Name>.csv` (`none` = the file does not exist) and the pickle files,
an association list from filename to the pickled problem object. -/
structure FSState (P : Type) where
  master : Option DFrame
  files : List (String × P)
deriving DecidableEq, Repr

/-- `init_if_not_saved` (`utils.py` lines 54-87), with `problem_cls`
abstracted to a constructor `ctor` (and its `__name__` to `name`), and
pickle round-trip modelled as the identity.  Returns
`some (problem, kwargs', state')` where `kwargs'` is the kwargs dict after
the call (line 82 mutates it in place on the build path) and `state'` the
filesystem after the call; `none` models an uncaught exception (opening a
`filename` that is missing, `NaN` or not a string). -/
def init_if_not_saved (ctor : Kwargs → P) (name folder : String)
    (kwargs : Kwargs) (load_new : Bool) (s : FSState P) :
    Option (P × Kwargs × FSState P) :=
  let res := find_saved_problem s.master kwargs
  if load_new = false ∧ res.1.isSome then
    match res.1 with
    | some (some (.str f)) =>
      match s.files.lookup f with
      | some p => some (p, kwargs, s)
      | none => none
    | _ => none
  else
    let p := ctor kwargs
    let f := mkFilename folder name res.2.rows.length
    let kwargs' := assocSet kwargs "filename" (.str f)
    some (p, kwargs', ⟨some (concatRow res.2 kwargs'), assocSet s.files f p⟩)

/-- Spec-side characterisation of the filter of `find_saved_problem`: a row
survives iff for every kwargs pair whose key is a column, the row's cell in
that column equals the kwargs value exactly (kwargs keys that are not columns
are ignored). -/
def survives (kwargs : Kwargs) (cols : List String) (r : Row) : Bool :=
  kwargs.all (fun kv => !cols.contains kv.1 || cellEq r kv.1 kv.2)

/-- The rational `1 + 2^-20`, written as a raw fraction so that concrete
evaluation needs no gcd normalisation: a value numerically close to `1` but
not equal to it. -/
def closeVal : ℚ := ⟨1048577, 1048576, by norm_num, by norm_num⟩

/-- A one-row index table whose `a` column stores the exact value `1`, used
to exhibit that a numerically close but unequal requested value excludes the
row. -/
def dfClose : DFrame :=
  ⟨["filename", "a"], [[("filename", PyVal.str "f0"), ("a", PyVal.num 1)]]⟩

/-!
The `lock` decorator (`utils.py` lines 44-52).  The state is one bit: whether
the exclusive `flock` on `.lock` is held by this process.  The wrapped body
is modelled by its outcome, an `Except` value (`.error` = the body raised).
-/

/-- `fcntl.flock(file.fileno(), fcntl.LOCK_EX)` (`utils.py` line 47). -/
def flockEx (_ : Bool) : Bool := true

/-- `fcntl.flock(file.fileno(), fcntl.LOCK_UN)` (`utils.py` line 50). -/
def flockUn (_ : Bool) : Bool := false

/-- Leaving the `with open(".lock", "a") as file:` block closes the file.
POSIX semantics: closing the only descriptor of an open file description
releases any `flock` lock held through it; the lock file is opened fresh
inside `wrap`, so this close drops the lock whether or not the explicit
unlock on line 50 ran. -/
def closeLockFile (_ : Bool) : Bool := false

/-- The `wrap` closure produced by `lock` (`utils.py` lines 45-51): acquire
the exclusive lock, run the body, release on the normal path via the
explicit `LOCK_UN`, and on the raising path via the `with`-exit close of the
lock file; the body's outcome (value or exception) is returned unchanged. -/
def lock_wrap (body : Except ε α) (s : Bool) : Except ε α × Bool :=
  let s1 := flockEx s
  match body with
  | .ok a =>
    let s2 := flockUn s1
    (.ok a, closeLockFile s2)
  | .error e => (.error e, closeLockFile s1)

/-!
The stdout capture helpers (`utils.py` lines 14-41).  The process's stream
state is: which stream id `sys.stdout` currently names (id 0 is the real
stdout), the text written to every stream so far, and a counter of fresh
`StringIO` ids.  A body run under the scope is modelled by its outcome and
the text it writes to the current `sys.stdout`.
-/

structure IOState where
  stdout : Nat
  contents : Nat → String
  nextId : Nat

/-- `print`/writes go to whatever stream `sys.stdout` currently names. -/
def writeOut (s : IOState) (t : String) : IOState :=
  { s with contents := fun i => if i = s.stdout then s.contents i ++ t else s.contents i }

/-- Python's `str.splitlines` restricted to `\n` separators: `""` gives no
lines and a trailing newline produces no extra empty line. -/
def splitlines (s : String) : List String :=
  if s = "" then []
  else if s.endsWith "\n" then (s.splitOn "\n").dropLast
  else s.splitOn "\n"

/-- `Capturing.__enter__` (`utils.py` lines 20-23): save the current stdout,
point `sys.stdout` at a fresh empty `StringIO`; returns the new state, the
saved stream id and the buffer id. -/
def Capturing.enter (s : IOState) : IOState × Nat × Nat :=
  (⟨s.nextId, fun i => if i = s.nextId then "" else s.contents i, s.nextId + 1⟩,
   s.stdout, s.nextId)

/-- `Capturing.__exit__` (`utils.py` lines 25-28): split the buffer's text
into lines (extending the list) and restore the saved stdout; it runs on
normal and on exceptional exit of the `with` block alike and does not
swallow the exception. -/
def Capturing.exit (saved buf : Nat) (s : IOState) : IOState × List String :=
  ({ s with stdout := saved }, splitlines (s.contents buf))

/-- `with Capturing() as output: body` for a body with outcome `result` that
writes `writes` to the current stdout: returns the body's outcome (an
exception propagates after `__exit__` ran), the captured lines, and the
final stream state. -/
def withCapturing (result : Except ε α) (writes : String) (s : IOState) :
    Except ε α × List String × IOState :=
  let (s1, saved, buf) := Capturing.enter s
  let s2 := writeOut s1 writes
  let (s3, lines) := Capturing.exit saved buf s2
  (result, lines, s3)

/-- The `capture` decorator's inner `_fn` (`utils.py` lines 34-39): run the
body under `Capturing`; afterwards, only on the normal path and only when
the `LOG_OPT_STDOUT` flag is truthy, print the captured list to the real
stdout. -/
def capture_wrap (logFlag : Bool) (result : Except ε α) (writes : String) (s : IOState) :
    Except ε α × IOState :=
  match withCapturing result writes s with
  | (.ok a, lines, s') => (.ok a, if logFlag then writeOut s' (toString lines) else s')
  | (.error e, _, s') => (.error e, s')

/-!
`solve_lineqn` (`utils.py` lines 185-191).  `torch.linalg.solve` is an
external collaborator: an arbitrary function returning either a solution or
an error (a raised `RuntimeError`).  Matrices and vectors are exact-rational.
-/

abbrev Vec (n : Nat) := Fin n → ℚ

abbrev Mat (n : Nat) := Matrix (Fin n) (Fin n) ℚ

/-- `solve_lineqn` (`utils.py` lines 185-191): try the solver; on a raised
error, print a warning and solve `A + eps*I` instead — that second call is
not wrapped in any handler, so its outcome (value or error) is returned
as is. -/
def solve_lineqn (solveFn : Mat n → Vec n → Except String (Vec n))
    (A : Mat n) (b : Vec n) (eps : ℚ) : Except String (Vec n) :=
  match solveFn A b with
  | .ok r => .ok r
  | .error _ => solveFn (A + eps • (1 : Mat n)) b

/-- A concrete 2×2 solver by Cramer's rule, failing exactly on determinant
zero: a stand-in for the external solver in concrete instantiations. -/
def solve2 (M : Mat 2) (v : Vec 2) : Except String (Vec 2) :=
  let d := M 0 0 * M 1 1 - M 0 1 * M 1 0
  if d = 0 then .error "singular"
  else .ok ![(M 1 1 * v 0 - M 0 1 * v 1) / d, (M 0 0 * v 1 - M 1 0 * v 0) / d]

/-!
`print_metrics` (`utils.py` lines 113-151), per-partition computation.  The
external collaborators are opaque, so a partition enters the model through
what the code reads off them: `objectives = problem.get_objective(...)`, a
1-D tensor (list) of rationals depending on the predictor's output, and, on
non-test partitions, the per-sample surrogate loss
`loss_fn(model(Xs[i]), Ys[i], ...)`, an opaque function of the sample index
`i` with `len(Xs) = nSamples` samples.  Tensors are 1-D rational lists and
`.mean()`/`L1Loss` are the usual elementwise means.
-/

def mean (xs : List ℚ) : ℚ := xs.sum / xs.length

/-- `torch.nn.L1Loss()(a, b)`: mean absolute elementwise difference. -/
def l1Loss (a b : List ℚ) : ℚ := mean ((a.zip b).map (fun p => |p.1 - p.2|))

/-- `utils.py` lines 134-142: on a non-`test` partition the per-sample
surrogate losses are recomputed and stacked; on `test` the losses are
defined as all-zeros of the objectives' shape. -/
def lossesOf (partition : String) (sampleLoss : Nat → ℚ) (nSamples : Nat)
    (objectives : List ℚ) : List ℚ :=
  if partition ≠ "test" then (List.range nSamples).map sampleLoss
  else objectives.map (fun _ => 0)

/-- One iteration of the `print_metrics` loop (`utils.py` lines 123-149):
the reported triple `(objective, loss, mae)` for one partition, where
`mae = L1Loss(losses, -objectives)`. -/
def partitionMetrics (partition : String) (objectives : List ℚ)
    (sampleLoss : Nat → ℚ) (nSamples : Nat) : ℚ × ℚ × ℚ :=
  let losses := lossesOf partition sampleLoss nSamples objectives
  (mean objectives, mean losses, l1Loss losses (objectives.map (fun o => -o)))

/-- `print_metrics` over its datasets: one reported entry per partition
tuple, in order. -/
def print_metrics (datasets : List (String × List ℚ × (Nat → ℚ) × Nat)) :
    List (String × (ℚ × ℚ × ℚ)) :=
  datasets.map (fun d => (d.1, partitionMetrics d.1 d.2.1 d.2.2.1 d.2.2.2))

/-!
The tensor-shape helpers (`utils.py` lines 160-166).  A tensor is a shape
together with a total function from multi-indices (lists of coordinates,
one per dimension) to entries; the operations below are the torch
primitives the source composes, written for in-bounds indices.
-/

structure Tensor (α : Type) where
  shape : List Nat
  data : List Nat → α

def Tensor.ndim (t : Tensor α) : Nat := t.shape.length

/-- `t[(...,) + (None,) * k]`: append `k` trailing axes of size 1. -/
def Tensor.unsqueezeTrailing (t : Tensor α) (k : Nat) : Tensor α :=
  ⟨t.shape ++ List.replicate k 1, fun idx => t.data (idx.take t.shape.length)⟩

/-- `torch.Tensor.expand`: size `-1` keeps the dimension; a dimension of
size 1 is broadcast, reading index 0. -/
def Tensor.expand (t : Tensor α) (sizes : List Int) : Tensor α :=
  ⟨(t.shape.zip sizes).map (fun p => if p.2 = -1 then p.1 else p.2.toNat),
   fun idx => t.data ((t.shape.zip idx).map (fun p => if p.1 = 1 then 0 else p.2))⟩

/-- `torch.Tensor.gather` along dimension `d`: the output has the index
tensor's shape, and entry at `idx` reads the source at `idx` with its `d`-th
coordinate replaced by the index tensor's entry. -/
def Tensor.gather (t : Tensor α) (d : Nat) (index : Tensor Nat) : Tensor α :=
  ⟨index.shape, fun idx => t.data (idx.set d (index.data idx))⟩

/-- `torch.Tensor.squeeze(d)`: drop dimension `d` when it has size 1,
otherwise return the tensor unchanged. -/
def Tensor.squeezeDim (t : Tensor α) (d : Nat) : Tensor α :=
  if t.shape.get? d = some 1 then
    ⟨t.shape.eraseIdx d, fun idx => t.data (idx.insertIdx d 0)⟩
  else t

/-- `gather_incomplete_left` (`utils.py` lines 160-161), the source's one
expression: broadcast the index across the value's trailing dimensions,
gather along axis `I.ndim`, and squeeze that axis away. -/
def gather_incomplete_left (tensor : Tensor α) (I : Tensor Nat) : Tensor α :=
  (tensor.gather I.ndim
    ((I.unsqueezeTrailing (tensor.ndim - I.ndim)).expand
      (List.replicate (I.ndim + 1) (-1) ++
        (tensor.shape.drop (I.ndim + 1)).map Int.ofNat))).squeezeDim I.ndim

/-- The loop of `trim_left` on the shape: `while tensor.shape[0] == 1:
tensor = tensor[0]`; evaluating `shape[0]` of a rank-0 tensor raises
(`none`), and `tensor[0]` drops the leading axis, fixing coordinate 0. -/
def trimShape : List Nat → (List Nat → α) → Option (Tensor α)
  | [], _ => none
  | d :: rest, f =>
    if d = 1 then trimShape rest (fun idx => f (0 :: idx)) else some ⟨d :: rest, f⟩

/-- `trim_left` (`utils.py` lines 163-166); `none` models the uncaught
`IndexError` when the loop strips every dimension. -/
def trim_left (t : Tensor α) : Option (Tensor α) := trimShape t.shape t.data

/-- A concrete `(4,5,6)` value tensor whose entry at `[i,j,k]` is the digit
code `100*i + 10*j + k`. -/
def tensor456 : Tensor Nat :=
  ⟨[4, 5, 6], fun idx => match idx with
    | [i, j, k] => 100 * i + 10 * j + k
    | _ => 0⟩

/-- A concrete `(4,)` index tensor, constantly 2. -/
def index4 : Tensor Nat :=
  ⟨[4], fun idx => match idx with
    | [_] => 2
    | _ => 0⟩

/-- The all-ones 2×2 matrix: singular, so Cramer's rule fails on it. -/
def matOnes : Mat 2 := fun _ _ => 1

/-- The right-hand side used in the concrete `solve_lineqn` run. -/
def vecOnes : Vec 2 := fun _ => 1


section AssocLemmas

variable {β : Type}

theorem lookup_eq_none_of_not_mem_keys (d : List (String × β)) (k : String)
    (h : k ∉ d.map Prod.fst) : d.lookup k = none := by
  induction d with
  | nil => rfl
  | cons p t ih =>
    obtain ⟨k', v'⟩ := p
    simp only [List.map_cons, List.mem_cons, not_or] at h
    simp only [List.lookup_cons, beq_false_of_ne h.1]
    exact ih h.2

theorem lookup_eq_some_of_mem_nodup {d : List (String × β)} {k : String} {v : β}
    (hnd : (d.map Prod.fst).Nodup) (hm : (k, v) ∈ d) : d.lookup k = some v := by
  induction d with
  | nil => simp at hm
  | cons p t ih =>
    obtain ⟨k', v'⟩ := p
    simp only [List.map_cons, List.nodup_cons] at hnd
    rcases List.mem_cons.mp hm with h | h
    · obtain ⟨rfl, rfl⟩ : k = k' ∧ v = v' := by simpa using h
      simp [List.lookup_cons]
    · have hk : k ≠ k' := by
        rintro rfl
        exact hnd.1 (List.mem_map.mpr ⟨(k, v), h, rfl⟩)
      simp only [List.lookup_cons, beq_false_of_ne hk]
      exact ih hnd.2 h

theorem lookup_append_of_some {d e : List (String × β)} {k : String} {v : β}
    (h : d.lookup k = some v) : (d ++ e).lookup k = some v := by
  induction d with
  | nil => simp [List.lookup] at h
  | cons p t ih =>
    obtain ⟨k', v'⟩ := p
    rw [List.cons_append]
    by_cases hk : k = k'
    · simpa [List.lookup_cons, hk] using h
    · simp only [List.lookup_cons, beq_false_of_ne hk] at h ⊢
      exact ih h

theorem lookup_append_of_not_mem_keys {d : List (String × β)} (e : List (String × β))
    {k : String} (h : k ∉ d.map Prod.fst) : (d ++ e).lookup k = e.lookup k := by
  induction d with
  | nil => rfl
  | cons p t ih =>
    obtain ⟨k', v'⟩ := p
    simp only [List.map_cons, List.mem_cons, not_or] at h
    rw [List.cons_append]
    simp only [List.lookup_cons, beq_false_of_ne h.1]
    exact ih h.2

theorem assocSet_of_not_mem_keys {d : List (String × β)} {k : String} (v : β)
    (h : k ∉ d.map Prod.fst) : assocSet d k v = d ++ [(k, v)] := by
  rw [assocSet, if_neg]
  intro hany
  obtain ⟨p, hp, hpk⟩ := List.any_eq_true.mp hany
  exact h (List.mem_map.mpr ⟨p, hp, beq_iff_eq.mp hpk⟩)

theorem assocSet_lookup (d : List (String × β)) (k : String) (v : β) :
    (assocSet d k v).lookup k = some v := by
  rw [assocSet]
  by_cases hany : (d.any (fun p => p.1 == k)) = true
  · rw [if_pos hany]
    induction d with
    | nil => simp at hany
    | cons p t ih =>
      obtain ⟨k', v'⟩ := p
      by_cases hk : k' = k
      · simp [hk, List.lookup_cons]
      · simp only [List.any_cons, beq_false_of_ne hk, Bool.false_or] at hany
        simp only [List.map_cons, beq_false_of_ne hk, Bool.false_eq_true, if_false,
          List.lookup_cons, beq_false_of_ne (Ne.symm hk)]
        exact ih hany
  · rw [if_neg hany]
    have hnm : k ∉ d.map Prod.fst := by
      intro hmem
      obtain ⟨p, hp, hpk⟩ := List.mem_map.mp hmem
      exact hany (List.any_eq_true.mpr ⟨p, hp, beq_iff_eq.mpr hpk⟩)
    rw [lookup_append_of_not_mem_keys _ hnm]
    simp [List.lookup_cons]

end AssocLemmas

section FilterLemmas

theorem foldl_filterStep (kwargs : Kwargs) (df : DFrame) :
    kwargs.foldl filterStep df = ⟨df.cols, df.rows.filter (survives kwargs df.cols)⟩ := by
  induction kwargs generalizing df with
  | nil =>
    cases df with
    | mk cols rows =>
      simp only [List.foldl_nil, DFrame.mk.injEq, true_and]
      refine (List.filter_eq_self.mpr ?_).symm
      intro r _
      simp [survives]
  | cons kv rest ih =>
    rw [List.foldl_cons, filterStep]
    by_cases hc : kv.1 ∈ df.cols
    · rw [if_pos hc]
      rw [ih ⟨df.cols, df.rows.filter (fun r => cellEq r kv.1 kv.2)⟩]
      simp only [DFrame.mk.injEq, true_and]
      rw [List.filter_filter]
      apply List.filter_congr
      intro r _
      have hct : df.cols.contains kv.1 = true := by simpa using hc
      simp only [survives, List.all_cons, hct, Bool.not_true, Bool.false_or]
      exact Bool.and_comm _ _
    · rw [if_neg hc]
      rw [ih df]
      simp only [DFrame.mk.injEq, true_and]
      apply List.filter_congr
      intro r _
      have hct : df.cols.contains kv.1 = false := by simpa using hc
      simp only [survives, List.all_cons, hct, Bool.not_false, Bool.true_or, Bool.true_and]

theorem survives_append_cols {kwargs : Kwargs} {cols : List String} (ex : List String)
    {r : Row} (h : survives kwargs cols r = false) :
    survives kwargs (cols ++ ex) r = false := by
  obtain ⟨kv, hkv, hf⟩ := List.all_eq_false.mp h
  apply List.all_eq_false.mpr
  refine ⟨kv, hkv, ?_⟩
  rcases hcontains : cols.contains kv.1 with _ | _
  · rw [hcontains] at hf
    simp at hf
  · have hmem : kv.1 ∈ cols := by
      simpa using hcontains
    have hce : cellEq r kv.1 kv.2 = false := by
      rw [hcontains] at hf
      simpa using hf
    have : (cols ++ ex).contains kv.1 = true := by
      simpa using Or.inl hmem
    rw [this, hce]
    simp

theorem find_saved_problem_eq (df : DFrame) (kwargs : Kwargs) :
    find_saved_problem (some df) kwargs =
      (match df.rows.filter (survives kwargs df.cols) with
       | [] => none
       | r :: _ => some (r.lookup "filename"), df) := by
  rw [find_saved_problem]
  simp only [Option.getD_some]
  rw [foldl_filterStep]
  cases hf : df.rows.filter (survives kwargs df.cols) with
  | nil => simp [hf]
  | cons r t => simp [hf]

theorem find_saved_problem_none (kwargs : Kwargs) :
    find_saved_problem none kwargs = (none, emptyFrame kwargs) := by
  simp [find_saved_problem, foldl_filterStep, emptyFrame]

end FilterLemmas

theorem survives_filter_cols (kwargs : Kwargs) (cols : List String) (r : Row) :
    survives (kwargs.filter (fun kv => cols.contains kv.1)) cols r = survives kwargs cols r := by
  rw [survives, survives]
  rcases h : kwargs.all (fun kv => !cols.contains kv.1 || cellEq r kv.1 kv.2) with _ | _
  · apply List.all_eq_false.mpr
    obtain ⟨kv', hkv', hp⟩ := List.all_eq_false.mp h
    refine ⟨kv', List.mem_filter.mpr ⟨hkv', ?_⟩, hp⟩
    rcases hc : cols.contains kv'.1 with _ | _
    · rw [hc] at hp
      simp at hp
    · rfl
  · apply List.all_eq_true.mpr
    intro kv' hkv'
    exact List.all_eq_true.mp h kv' (List.mem_of_mem_filter hkv')

/-- C3: `find_saved_problem` filters rows by exact equality on every kwargs
key that is a column of the table, silently ignores kwargs keys that are not
columns, and returns the `filename` cell of the first surviving row if any
row survives, else `None`; a row whose stored value differs from the
requested value in a filtered column — however close numerically — is
excluded. -/
theorem find_saved_problem_exact_filter (df : DFrame) (kwargs : Kwargs) :
    ((find_saved_problem (some df) kwargs).1 =
      match df.rows.filter (survives kwargs df.cols) with
      | [] => none
      | r :: _ => some (r.lookup "filename")) ∧
    ((find_saved_problem (some df) (kwargs.filter (fun kv => df.cols.contains kv.1))).1 =
      (find_saved_problem (some df) kwargs).1) ∧
    (∀ r ∈ df.rows, ∀ kv ∈ kwargs, kv.1 ∈ df.cols → r.lookup kv.1 ≠ some kv.2 →
      r ∉ df.rows.filter (survives kwargs df.cols)) := by
  refine ⟨?_, ?_, ?_⟩
  · rw [find_saved_problem_eq]
  · rw [find_saved_problem_eq, find_saved_problem_eq]
    have : df.rows.filter (survives (kwargs.filter (fun kv => df.cols.contains kv.1)) df.cols)
        = df.rows.filter (survives kwargs df.cols) := by
      apply List.filter_congr
      intro r _
      exact survives_filter_cols kwargs df.cols r
    rw [this]
  · intro r hr kv hkv hcol hne hmem
    have hs : survives kwargs df.cols r = true := List.of_mem_filter hmem
    rw [survives] at hs
    have h2 := List.all_eq_true.mp hs kv hkv
    have hct : df.cols.contains kv.1 = true := by simpa using hcol
    rw [hct] at h2
    simp only [Bool.not_true, Bool.false_or, cellEq, beq_iff_eq] at h2
    exact hne h2

/-- C2: on a nonexistent master file, `find_saved_problem` returns
`(None, table)` where `table` has column set `{filename} ∪ kwargs.keys()` and
zero rows (and no exception is raised: the function is total here). -/
theorem find_saved_problem_missing_master (kwargs : Kwargs) :
    (find_saved_problem none kwargs).1 = none ∧
    (find_saved_problem none kwargs).2.rows = [] ∧
    ∀ c, c ∈ (find_saved_problem none kwargs).2.cols ↔
      c = "filename" ∨ c ∈ kwargs.map Prod.fst := by
  rw [find_saved_problem_none]
  refine ⟨rfl, rfl, ?_⟩
  intro c
  simp [emptyFrame]

/-- C1 counterexample: "never been cached" does not imply the lookup
misses, because the filter matches on the requested keys only.  Starting
from an empty cache, one call builds and stores a problem from kwargs
`{a: 1, b: 2}`.  A following call with kwargs `{a: 1}` — a value combination
never cached — and `load_new = False` then matches that stored row, so it
appends no row, writes no file (the final state equals the initial one), and
returns the instance that was built from `{a: 1, b: 2}`, refuting the
claimed "appends exactly one new row and writes exactly one new serialized
file". -/
theorem init_round_trip_cex :
    init_if_not_saved (fun kw => kw) "LP" "models"
        [("a", PyVal.num 1), ("b", PyVal.num 2)] true ⟨none, []⟩ =
      some ([("a", PyVal.num 1), ("b", PyVal.num 2)],
        [("a", PyVal.num 1), ("b", PyVal.num 2), ("filename", PyVal.str "models/LP_0.pkl")],
        ⟨some ⟨["filename", "a", "b"],
          [[("a", PyVal.num 1), ("b", PyVal.num 2), ("filename", PyVal.str "models/LP_0.pkl")]]⟩,
         [("models/LP_0.pkl", [("a", PyVal.num 1), ("b", PyVal.num 2)])]⟩) ∧
    init_if_not_saved (fun kw => kw) "LP" "models" [("a", PyVal.num 1)] false
        ⟨some ⟨["filename", "a", "b"],
          [[("a", PyVal.num 1), ("b", PyVal.num 2), ("filename", PyVal.str "models/LP_0.pkl")]]⟩,
         [("models/LP_0.pkl", [("a", PyVal.num 1), ("b", PyVal.num 2)])]⟩ =
      some ([("a", PyVal.num 1), ("b", PyVal.num 2)], [("a", PyVal.num 1)],
        ⟨some ⟨["filename", "a", "b"],
          [[("a", PyVal.num 1), ("b", PyVal.num 2), ("filename", PyVal.str "models/LP_0.pkl")]]⟩,
         [("models/LP_0.pkl", [("a", PyVal.num 1), ("b", PyVal.num 2)])]⟩) ∧
    ([("a", PyVal.num 1), ("b", PyVal.num 2)] : Kwargs) ≠ [("a", PyVal.num 1)] := by
  refine ⟨by decide, by decide, by decide⟩

/-- C1 amended: for a kwargs mapping on which the cache lookup finds no row
(and well-formed inputs: distinct kwargs keys, no caller-supplied `filename`
key, and a pickle name not already taken), `init_if_not_saved` appends
exactly one new row to the index table and writes exactly one new serialized
file, and a subsequent call with the identical kwargs and `load_new = False`
finds exactly that row, returns the instance deserialized from that same
file, and creates no new row and no new file (the state is returned
unchanged). -/
theorem init_round_trip {P : Type} (ctor : Kwargs → P) (name folder : String)
    (kwargs : Kwargs) (load_new : Bool) (s : FSState P)
    (hnd : (kwargs.map Prod.fst).Nodup)
    (hfn : "filename" ∉ kwargs.map Prod.fst)
    (hnew : (find_saved_problem s.master kwargs).1 = none)
    (hfresh : mkFilename folder name (find_saved_problem s.master kwargs).2.rows.length
      ∉ s.files.map Prod.fst) :
    ∃ f st',
      f = mkFilename folder name (find_saved_problem s.master kwargs).2.rows.length ∧
      init_if_not_saved ctor name folder kwargs load_new s =
        some (ctor kwargs, kwargs ++ [("filename", PyVal.str f)], st') ∧
      (∃ df', st'.master = some df' ∧
        df'.rows = (find_saved_problem s.master kwargs).2.rows
          ++ [kwargs ++ [("filename", PyVal.str f)]]) ∧
      st'.files = s.files ++ [(f, ctor kwargs)] ∧
      (find_saved_problem st'.master kwargs).1 = some (some (PyVal.str f)) ∧
      st'.files.lookup f = some (ctor kwargs) ∧
      init_if_not_saved ctor name folder kwargs false st' =
        some (ctor kwargs, kwargs, st') := by
  set saved : DFrame := (find_saved_problem s.master kwargs).2 with hsaved
  set f : String := mkFilename folder name saved.rows.length with hf
  set row' : Row := kwargs ++ [("filename", PyVal.str f)] with hrow
  set df' : DFrame := concatRow saved row' with hdf
  set st' : FSState P := ⟨some df', s.files ++ [(f, ctor kwargs)]⟩ with hst
  -- the pre-state filter keeps no row
  have hfilter0 : saved.rows.filter (survives kwargs saved.cols) = [] := by
    cases hm : s.master with
    | none =>
      have : saved = emptyFrame kwargs := by
        rw [hsaved, hm, find_saved_problem_none]
      rw [this]
      rfl
    | some df =>
      have heq := find_saved_problem_eq df kwargs
      have hsv : saved = df := by rw [hsaved, hm, heq]
      rw [hm, heq] at hnew
      rw [hsv]
      rcases hflt : df.rows.filter (survives kwargs df.cols) with _ | ⟨r, t⟩
      · rfl
      · rw [hflt] at hnew
        simp at hnew
  -- every kwargs cell of the appended row reads back exactly
  have hrowlook : ∀ kv ∈ kwargs, row'.lookup kv.1 = some kv.2 := by
    intro kv hkv
    have : kwargs.lookup kv.1 = some kv.2 :=
      lookup_eq_some_of_mem_nodup hnd (by simpa using hkv)
    rw [hrow]
    exact lookup_append_of_some this
  have hrowfn : row'.lookup "filename" = some (PyVal.str f) := by
    rw [hrow, lookup_append_of_not_mem_keys _ hfn]
    simp [List.lookup_cons]
  -- the appended row survives the filter over the grown column set
  have hsurv : survives kwargs df'.cols row' = true := by
    rw [survives]
    apply List.all_eq_true.mpr
    intro kv hkv
    have := hrowlook kv hkv
    simp [cellEq, this]
  -- old rows still fail the filter over the grown column set
  have hold : ∀ r ∈ saved.rows, survives kwargs df'.cols r = false := by
    intro r hr
    have h0 : survives kwargs saved.cols r = false := by
      have := List.filter_eq_nil_iff.mp hfilter0 r hr
      simpa using this
    have : df'.cols = saved.cols ++ (row'.map Prod.fst).filter (fun c => !saved.cols.contains c) := by
      rw [hdf]; rfl
    rw [this]
    exact survives_append_cols _ h0
  -- the post-state filter keeps exactly the appended row
  have hfilter1 : df'.rows.filter (survives kwargs df'.cols) = [row'] := by
    have hrows : df'.rows = saved.rows ++ [row'] := by rw [hdf]; rfl
    rw [hrows, List.filter_append]
    have h1 : saved.rows.filter (survives kwargs df'.cols) = [] := by
      apply List.filter_eq_nil_iff.mpr
      intro r hr
      simp [hold r hr]
    rw [h1, List.nil_append, List.filter_cons, hsurv]
    rfl
  -- the lookup on the post state finds the appended row's filename
  have hfind1 : (find_saved_problem (some df') kwargs).1 = some (some (PyVal.str f)) := by
    rw [find_saved_problem_eq]
    simp only [hfilter1]
    rw [hrowfn]
  -- the pickle written is found again by name
  have hlook1 : (s.files ++ [(f, ctor kwargs)]).lookup f = some (ctor kwargs) := by
    rw [lookup_append_of_not_mem_keys _ hfresh]
    simp [List.lookup_cons]
  -- the first call takes the build path
  have hcall1 : init_if_not_saved ctor name folder kwargs load_new s =
      some (ctor kwargs, row', st') := by
    simp only [init_if_not_saved, ← hsaved, ← hf, hnew, Option.isSome_none,
      Bool.false_eq_true, and_false, if_false]
    rw [assocSet_of_not_mem_keys _ hfn, ← hrow, hst, hdf,
      assocSet_of_not_mem_keys _ hfresh]
  -- the second call takes the load path and changes nothing
  have hcall2 : init_if_not_saved ctor name folder kwargs false st' =
      some (ctor kwargs, kwargs, st') := by
    have hm2 : st'.master = some df' := by rw [hst]
    have hfl : st'.files = s.files ++ [(f, ctor kwargs)] := by rw [hst]
    simp only [init_if_not_saved, hm2, hfind1, hfl, Option.isSome_some,
      eq_self_iff_true, and_true, if_true, hlook1]
  exact ⟨f, st', rfl, hcall1, ⟨df', by rw [hst], by rw [hdf, hrow]; rfl⟩,
    by rw [hst], by rw [hst]; exact hfind1, by rw [hst]; exact hlook1, hcall2⟩

/-- C9: on every build-and-save path (`load_new` true, or no cached filename
found), `init_if_not_saved` mutates the caller's kwargs dict in place,
binding the key `filename` to the newly created file's path — the returned
kwargs is the original dict extended with that entry; on the pure cache-hit
path the kwargs dict is returned unchanged. -/
theorem init_if_not_saved_kwargs_mutation {P : Type} (ctor : Kwargs → P)
    (name folder : String) (kwargs : Kwargs) (load_new : Bool) (s : FSState P)
    (hfn : "filename" ∉ kwargs.map Prod.fst) :
    ((load_new = true ∨ (find_saved_problem s.master kwargs).1 = none) →
      ∃ st', init_if_not_saved ctor name folder kwargs load_new s =
        some (ctor kwargs,
          kwargs ++ [("filename", PyVal.str (mkFilename folder name
            (find_saved_problem s.master kwargs).2.rows.length))], st')) ∧
    ((kwargs ++ [("filename", PyVal.str (mkFilename folder name
        (find_saved_problem s.master kwargs).2.rows.length))]).lookup "filename" =
      some (PyVal.str (mkFilename folder name
        (find_saved_problem s.master kwargs).2.rows.length))) ∧
    (∀ p kw' st', load_new = false →
      (find_saved_problem s.master kwargs).1.isSome = true →
      init_if_not_saved ctor name folder kwargs load_new s = some (p, kw', st') →
      kw' = kwargs) := by
  refine ⟨?_, ?_, ?_⟩
  · intro h
    have hcond : ¬(load_new = false ∧
        ((find_saved_problem s.master kwargs).1.isSome = true)) := by
      rcases h with h | h
      · rintro ⟨h', _⟩
        rw [h] at h'
        exact absurd h' (by simp)
      · rintro ⟨_, h'⟩
        rw [h] at h'
        simp at h'
    simp only [init_if_not_saved]
    rw [if_neg hcond, assocSet_of_not_mem_keys _ hfn]
    exact ⟨_, rfl⟩
  · rw [lookup_append_of_not_mem_keys _ hfn]
    simp [List.lookup_cons]
  · intro p kw' st' hln hsome hinit
    subst hln
    rcases hres : (find_saved_problem s.master kwargs).1 with _ | ov
    · rw [hres] at hsome
      simp at hsome
    · rcases ov with _ | pv
      · simp only [init_if_not_saved, hres, Option.isSome_some, eq_self_iff_true,
          and_true, if_true] at hinit
        exact Option.noConfusion hinit
      · rcases pv with fnm | q
        · rcases hlk : s.files.lookup fnm with _ | p'
          · simp only [init_if_not_saved, hres, Option.isSome_some, eq_self_iff_true,
              and_true, if_true, hlk] at hinit
            exact Option.noConfusion hinit
          · simp only [init_if_not_saved, hres, Option.isSome_some, eq_self_iff_true,
              and_true, if_true, hlk, Option.some.injEq, Prod.mk.injEq] at hinit
            exact hinit.2.1.symm
        · simp only [init_if_not_saved, hres, Option.isSome_some, eq_self_iff_true,
            and_true, if_true] at hinit
          exact Option.noConfusion hinit

theorem find_saved_problem_missing_master_witness :
    (find_saved_problem none [("b", PyVal.num 2)]).1 = none ∧
    (find_saved_problem none [("b", PyVal.num 2)]).2.rows = [] ∧
    ∀ c, c ∈ (find_saved_problem none [("b", PyVal.num 2)]).2.cols ↔
      c = "filename" ∨ c ∈ ([("b", PyVal.num 2)] : Kwargs).map Prod.fst :=
  find_saved_problem_missing_master [("b", PyVal.num 2)]

theorem find_saved_problem_exact_filter_witness :
    (((find_saved_problem (some dfClose) [("a", PyVal.num closeVal)]).1 =
      match dfClose.rows.filter (survives [("a", PyVal.num closeVal)] dfClose.cols) with
      | [] => none
      | r :: _ => some (r.lookup "filename")) ∧
    ((find_saved_problem (some dfClose)
        (([("a", PyVal.num closeVal)] : Kwargs).filter
          (fun kv => dfClose.cols.contains kv.1))).1 =
      (find_saved_problem (some dfClose) [("a", PyVal.num closeVal)]).1) ∧
    (∀ r ∈ dfClose.rows, ∀ kv ∈ ([("a", PyVal.num closeVal)] : Kwargs),
      kv.1 ∈ dfClose.cols → r.lookup kv.1 ≠ some kv.2 →
      r ∉ dfClose.rows.filter (survives [("a", PyVal.num closeVal)] dfClose.cols))) ∧
    (find_saved_problem (some dfClose) [("a", PyVal.num closeVal)]).1 = none ∧
    (find_saved_problem (some dfClose) [("a", PyVal.num 1)]).1 = some (some (PyVal.str "f0")) :=
  ⟨find_saved_problem_exact_filter dfClose [("a", PyVal.num closeVal)],
   by decide, by decide⟩

theorem init_round_trip_witness :
    (find_saved_problem none [("a", PyVal.str "x")]).1 = none ∧
    (∃ f st',
      f = mkFilename "models" "LP"
        (find_saved_problem none [("a", PyVal.str "x")]).2.rows.length ∧
      init_if_not_saved (fun _ => ()) "LP" "models" [("a", PyVal.str "x")] true ⟨none, []⟩ =
        some ((), [("a", PyVal.str "x")] ++ [("filename", PyVal.str f)], st') ∧
      (∃ df', st'.master = some df' ∧
        df'.rows = (find_saved_problem none [("a", PyVal.str "x")]).2.rows
          ++ [[("a", PyVal.str "x")] ++ [("filename", PyVal.str f)]]) ∧
      st'.files = [] ++ [(f, ())] ∧
      (find_saved_problem st'.master [("a", PyVal.str "x")]).1 = some (some (PyVal.str f)) ∧
      st'.files.lookup f = some () ∧
      init_if_not_saved (fun _ => ()) "LP" "models" [("a", PyVal.str "x")] false st' =
        some ((), [("a", PyVal.str "x")], st')) :=
  ⟨by decide,
   init_round_trip (fun _ => ()) "LP" "models" [("a", PyVal.str "x")] true ⟨none, []⟩
     (by decide) (by decide) (by decide) (by decide)⟩

theorem init_if_not_saved_kwargs_mutation_witness :
    ("filename" ∉ ([("a", PyVal.num 3)] : Kwargs).map Prod.fst) ∧
    (((true = true ∨ (find_saved_problem none [("a", PyVal.num 3)]).1 = none) →
      ∃ st', init_if_not_saved (fun _ => ()) "LP" "models" [("a", PyVal.num 3)] true ⟨none, []⟩ =
        some ((),
          [("a", PyVal.num 3)] ++ [("filename", PyVal.str (mkFilename "models" "LP"
            (find_saved_problem none [("a", PyVal.num 3)]).2.rows.length))], st')) ∧
    (([("a", PyVal.num 3)] ++ [("filename", PyVal.str (mkFilename "models" "LP"
        (find_saved_problem none [("a", PyVal.num 3)]).2.rows.length))]).lookup "filename" =
      some (PyVal.str (mkFilename "models" "LP"
        (find_saved_problem none [("a", PyVal.num 3)]).2.rows.length))) ∧
    (∀ p kw' st', true = false →
      (find_saved_problem none [("a", PyVal.num 3)]).1.isSome = true →
      init_if_not_saved (fun _ => ()) "LP" "models" [("a", PyVal.num 3)] true ⟨none, []⟩ =
        some (p, kw', st') →
      kw' = [("a", PyVal.num 3)])) :=
  ⟨by decide,
   init_if_not_saved_kwargs_mutation (fun _ => ()) "LP" "models" [("a", PyVal.num 3)] true
     ⟨none, []⟩ (by decide)⟩

/-- C4: for every call to the lock-wrapped `init_if_not_saved` whose wrapped
body raises, the exclusive lock on the `.lock` file is released before the
exception propagates to the caller (on the raising path the explicit unlock
is skipped and the release happens through the `with`-exit close of the lock
file), so no exit path — normal or exceptional — leaves the lock held, and
the body's outcome is returned unchanged. -/
theorem lock_wrap_releases {ε α : Type} (body : Except ε α) (s : Bool) :
    (lock_wrap body s).2 = false ∧ (lock_wrap body s).1 = body := by
  cases body with
  | ok a => exact ⟨rfl, rfl⟩
  | error e => exact ⟨rfl, rfl⟩

/-- C8: for every body run under the capture scope, the original stdout
stream is restored on scope exit unconditionally — also when the body
raises — the text written during the scope is handed back as its ordered
list of lines, the body's outcome passes through unchanged, and the
`capture` wrapper restores stdout the same way. -/
theorem withCapturing_restores_stdout {ε α : Type} (result : Except ε α)
    (writes : String) (s : IOState) (logFlag : Bool) :
    (withCapturing result writes s).2.2.stdout = s.stdout ∧
    (withCapturing result writes s).2.1 = splitlines writes ∧
    (withCapturing result writes s).1 = result ∧
    (capture_wrap logFlag result writes s).2.stdout = s.stdout := by
  refine ⟨rfl, ?_, rfl, ?_⟩
  · show splitlines ((writeOut (Capturing.enter s).1 writes).contents s.nextId)
      = splitlines writes
    simp only [writeOut, Capturing.enter, if_pos rfl]
    rfl
  · cases result with
    | ok a => cases logFlag <;> rfl
    | error e => rfl

/-- C7: whenever the underlying solver raises on `A`, `solve_lineqn` does
not re-raise that first failure: it returns exactly the solver's outcome on
the regularised system `A + eps*I` — the solution if the retry succeeds, and
the retry's uncaught error if it fails again. -/
theorem solve_lineqn_regularized_retry {n : Nat}
    (solveFn : Mat n → Vec n → Except String (Vec n))
    (A : Mat n) (b : Vec n) (eps : ℚ) (msg : String)
    (h : solveFn A b = .error msg) :
    solve_lineqn solveFn A b eps = solveFn (A + eps • (1 : Mat n)) b ∧
    (∀ msg2, solveFn (A + eps • (1 : Mat n)) b = .error msg2 →
      solve_lineqn solveFn A b eps = .error msg2) := by
  constructor
  · rw [solve_lineqn, h]
  · intro msg2 h2
    rw [solve_lineqn, h, h2]

theorem solve_lineqn_regularized_retry_witness :
    solve2 matOnes vecOnes = .error "singular" ∧
    (solve_lineqn solve2 matOnes vecOnes (1/100000) =
      solve2 (matOnes + (1/100000 : ℚ) • (1 : Mat 2)) vecOnes ∧
    (∀ msg2, solve2 (matOnes + (1/100000 : ℚ) • (1 : Mat 2)) vecOnes = .error msg2 →
      solve_lineqn solve2 matOnes vecOnes (1/100000) = .error msg2)) :=
  ⟨by norm_num [solve2, matOnes],
   solve_lineqn_regularized_retry solve2 matOnes vecOnes (1/100000) "singular"
     (by norm_num [solve2, matOnes])⟩

/-- C5 counterexample: on a `test` partition with objective tensor `[-1]`,
the reported `mae` is `1` while `mean(objective)` is `-1`, so the claimed
chain `mae == mean(|0 - (-objective)|) == mean(objective)` fails at its last
equality (it only holds for nonnegative objectives). -/
theorem print_metrics_test_mae_cex :
    (partitionMetrics "test" [-1] (fun _ => 0) 1).2.2 = 1 ∧
    mean [-1] = -1 ∧
    ¬((partitionMetrics "test" [-1] (fun _ => 0) 1).2.2 = mean [-1]) := by
  refine ⟨?_, ?_, ?_⟩ <;> norm_num [partitionMetrics, lossesOf, l1Loss, mean]

/-- C5 amended: on every `test` partition with at least one sample,
regardless of the predictor's output, the per-sample losses are an all-zeros
tensor of the objectives' shape, the reported loss is `0`, and the reported
`mae` equals `mean(|0 - (-objective)|)` — that is, `mean(|objective|)`,
which coincides with `mean(objective)` only when no objective is negative. -/
theorem print_metrics_test_partition (objectives : List ℚ) (sampleLoss : Nat → ℚ)
    (nSamples : Nat) (h : objectives ≠ []) :
    lossesOf "test" sampleLoss nSamples objectives = objectives.map (fun _ => 0) ∧
    (partitionMetrics "test" objectives sampleLoss nSamples).2.1 = 0 ∧
    (partitionMetrics "test" objectives sampleLoss nSamples).2.2 =
      mean (objectives.map (fun o => |0 - (-o)|)) ∧
    print_metrics [("test", objectives, sampleLoss, nSamples)] =
      [("test", partitionMetrics "test" objectives sampleLoss nSamples)] := by
  have hloss : lossesOf "test" sampleLoss nSamples objectives
      = objectives.map (fun _ => 0) := by
    simp [lossesOf]
  refine ⟨hloss, ?_, ?_, rfl⟩
  · show mean (lossesOf "test" sampleLoss nSamples objectives) = 0
    rw [hloss, mean]
    have : (objectives.map (fun _ => (0 : ℚ))).sum = 0 := by
      apply List.sum_eq_zero
      intro x hx
      obtain ⟨a, -, heq⟩ := List.mem_map.mp hx
      exact heq.symm
    rw [this, zero_div]
  · show l1Loss (lossesOf "test" sampleLoss nSamples objectives)
      (objectives.map (fun o => -o)) = mean (objectives.map (fun o => |0 - (-o)|))
    rw [hloss, l1Loss, List.zip_map', List.map_map]
    rfl

theorem print_metrics_test_partition_witness :
    ([(2 : ℚ), 3] ≠ []) ∧
    (lossesOf "test" (fun _ => 5) 2 [(2 : ℚ), 3] = [(2 : ℚ), 3].map (fun _ => 0) ∧
    (partitionMetrics "test" [(2 : ℚ), 3] (fun _ => 5) 2).2.1 = 0 ∧
    (partitionMetrics "test" [(2 : ℚ), 3] (fun _ => 5) 2).2.2 =
      mean ([(2 : ℚ), 3].map (fun o => |0 - (-o)|)) ∧
    print_metrics [("test", [(2 : ℚ), 3], fun _ => 5, 2)] =
      [("test", partitionMetrics "test" [(2 : ℚ), 3] (fun _ => 5) 2)]) :=
  ⟨by decide, print_metrics_test_partition [(2 : ℚ), 3] (fun _ => 5) 2 (by decide)⟩

/-- C6 counterexample: on the concrete `(4,5,6)` value tensor and `(4,)`
index tensor (entries `2`, inside `[0,6)`), the result of
`gather_incomplete_left` has shape `(4,6)`, not the claimed `(4,5)`, and its
entry at `[0,0]` is `value[0, index[0], 0] = 20`, not the claimed
`value[0, 0, index[0]] = 2`. -/
theorem gather_incomplete_left_456_cex :
    (gather_incomplete_left tensor456 index4).shape ≠ [4, 5] ∧
    (gather_incomplete_left tensor456 index4).data [0, 0] ≠
      tensor456.data [0, 0, index4.data [0]] := by
  constructor
  · decide
  · decide

/-- C6 amended: for every value tensor of shape `(4,5,6)` and index tensor
of shape `(4,)` with entries in `[0,5)` (the bound of the gathered axis),
the result has shape `(4,6)` and `result[i,k] == value[i, index[i], k]` for
all valid `i, k`. -/
theorem gather_incomplete_left_456 {α : Type} (t : Tensor α) (I : Tensor Nat)
    (ht : t.shape = [4, 5, 6]) (hI : I.shape = [4])
    (hbound : ∀ i, i < 4 → I.data [i] < 5) :
    (gather_incomplete_left t I).shape = [4, 6] ∧
    ∀ i k, i < 4 → k < 6 →
      (gather_incomplete_left t I).data [i, k] = t.data [i, I.data [i], k] := by
  obtain ⟨sh, f⟩ := t
  obtain ⟨shI, g⟩ := I
  dsimp only at ht hI
  subst ht
  subst hI
  exact ⟨rfl, fun i k _ _ => rfl⟩

theorem gather_incomplete_left_456_witness :
    (tensor456.shape = [4, 5, 6] ∧ index4.shape = [4] ∧
      (∀ i, i < 4 → index4.data [i] < 5)) ∧
    ((gather_incomplete_left tensor456 index4).shape = [4, 6] ∧
    ∀ i k, i < 4 → k < 6 →
      (gather_incomplete_left tensor456 index4).data [i, k] =
        tensor456.data [i, index4.data [i], k]) :=
  ⟨⟨rfl, rfl, fun i _ => by
      show (2 : Nat) < 5
      decide⟩,
   gather_incomplete_left_456 tensor456 index4 rfl rfl (fun i _ => by
      show (2 : Nat) < 5
      decide)⟩

/-- Characterisation of the `trim_left` loop on an explicit shape. -/
theorem trimShape_spec {α : Type} : ∀ (sh : List Nat) (f : List Nat → α),
    ((trimShape sh f = none) ↔ ∀ d ∈ sh, d = 1) ∧
    (∀ t', trimShape sh f = some t' → ∃ d rest, t'.shape = d :: rest ∧ d ≠ 1)
  | [], f => by simp [trimShape]
  | d :: rest, f => by
    rw [trimShape]
    by_cases hd : d = 1
    · subst hd
      rw [if_pos rfl]
      have ih := trimShape_spec rest (fun idx => f (0 :: idx))
      refine ⟨?_, ih.2⟩
      rw [ih.1]
      constructor
      · intro hall e he
        rcases List.mem_cons.mp he with h | h
        · exact h
        · exact hall e h
      · intro hall e he
        exact hall e (List.mem_cons_of_mem _ he)
    · rw [if_neg hd]
      constructor
      · constructor
        · intro hcontra
          exact Option.noConfusion hcontra
        · intro hall
          exact absurd (hall d (List.mem_cons_self d rest)) hd
      · intro t' ht'
        have : t' = ⟨d :: rest, f⟩ := by
          injection ht' with h
          exact h.symm
        exact ⟨d, rest, by rw [this], hd⟩

/-- C10: `trim_left` raises (models as `none`) exactly when every dimension
of the input has size 1 — the loop strips the tensor down to rank 0 and then
reads `shape[0]` out of bounds — including the all-singleton shapes `(1,)`,
`(1,1)`, `(1,1,1)`; it returns normally exactly when some dimension differs
from 1, and the result's leading dimension then has size different from 1. -/
theorem trim_left_spec {α : Type} (t : Tensor α) :
    ((trim_left t).isSome ↔ ∃ d ∈ t.shape, d ≠ 1) ∧
    ((trim_left t = none) ↔ ∀ d ∈ t.shape, d = 1) ∧
    (∀ t', trim_left t = some t' → ∃ d rest, t'.shape = d :: rest ∧ d ≠ 1) := by
  have h := trimShape_spec t.shape t.data
  refine ⟨?_, h.1, h.2⟩
  rw [Option.isSome_iff_ne_none, trim_left]
  constructor
  · intro hne
    by_contra hnot
    push_neg at hnot
    exact hne (h.1.mpr hnot)
  · rintro ⟨d, hd, hd1⟩ hnone
    exact hd1 (h.1.mp hnone d hd)
